import Mathlib

/-!
Verification development for the sketchly repository's version-history store
(`src/store/version-history-store.ts`) and sandboxed component renderer
(`src/components/component-preview.tsx`).

The TypeScript is shallowly embedded: each store action becomes a pure Lean
function over an explicit store state; nondeterministic inputs of the source
(`uuidv4()`, `new Date()`) become explicit parameters; a JavaScript `throw`
that escapes an action before its `set(...)` call is modelled by an `Except`
error together with the unchanged state.
-/

namespace Sketchly

/-- Embeds the `CodeVersion` interface of `version-history-store.ts`.
`timestamp : Date` is modelled as a `Nat` tick; the optional
`aiSuggestions`/`changes` fields are carried for fidelity but unused. -/
structure CodeVersion where
  id : String
  code : String
  timestamp : Nat
  description : String
  aiSuggestions : Option (List String) := none
  changes : Option (List String) := none
  componentName : String
  versionNumber : Nat
  parentVersionId : Option String := none
deriving Repr, DecidableEq

/-- Embeds the `VersionHistory` interface. -/
structure VersionHistory where
  projectId : String
  versions : List CodeVersion
  currentVersionId : String
deriving Repr, DecidableEq

/-- The `histories : Record<string, VersionHistory>` map of the zustand store,
as a function from project id to an optional history (`histories[p]` is
`undefined` exactly when the key is absent). -/
def Store : Type := String → Option VersionHistory

/-- The store with no histories (zustand initial state `histories: {}`). -/
def emptyStore : Store := fun _ => none

/-- `{ ...state.histories, [projectId]: history }`: update one key. -/
def setStore (s : Store) (p : String) (h : VersionHistory) : Store :=
  fun q => if q = p then some h else s q

/-- Embeds `initializeHistory`: unconditionally (re)creates the history for
`projectId` with a single version numbered 1 and makes it current.  `id` and
`ts` stand for the `uuidv4()` and `new Date()` calls. -/
def initializeHistory (s : Store) (projectId initialCode componentName : String)
    (id : String) (ts : Nat) : Store :=
  let initialVersion : CodeVersion :=
    { id := id, code := initialCode, timestamp := ts,
      description := "Initial version", componentName := componentName,
      versionNumber := 1 }
  setStore s projectId
    { projectId := projectId, versions := [initialVersion],
      currentVersionId := initialVersion.id }

/-- The two ways `addVersion` can throw before reaching `set(...)`:
`historyNotFound` is the explicit `throw new Error('History not found for
project')`; `typeErrorUndefined` is the implicit JavaScript `TypeError` raised
by reading a property (`.componentName` or `.versionNumber`) of
`history.versions[history.versions.length - 1]` when `versions` is empty, so
that `latestVersion` is `undefined`. -/
inductive AddErr where
  | historyNotFound
  | typeErrorUndefined
deriving Repr, DecidableEq

/-- JavaScript `componentName || latestVersion.componentName`: the argument is
used only when it is present and truthy (a non-empty string). -/
def jsOrName (componentName : Option String) (fallback : String) : String :=
  match componentName with
  | some n => if n = "" then fallback else n
  | none => fallback

/-- Embeds `addVersion`.  On success returns the updated store and the new
version (the source returns `newVersion`); on a throw the store is unchanged
(the `set` call is never reached). -/
def addVersion (s : Store) (projectId code description : String)
    (componentName : Option String) (id : String) (ts : Nat) :
    Except AddErr (Store × CodeVersion) :=
  match s projectId with
  | none => .error .historyNotFound
  | some history =>
    match history.versions.getLast? with
    | none => .error .typeErrorUndefined
    | some latestVersion =>
      let newVersion : CodeVersion :=
        { id := id, code := code, timestamp := ts,
          description := description,
          componentName := jsOrName componentName latestVersion.componentName,
          versionNumber := latestVersion.versionNumber + 1,
          parentVersionId := some latestVersion.id }
      .ok (setStore s projectId
            { history with versions := history.versions ++ [newVersion],
                           currentVersionId := newVersion.id },
           newVersion)

/-- The state after `addVersion`: unchanged when the action threw. -/
def addVersionState (s : Store) (projectId code description : String)
    (componentName : Option String) (id : String) (ts : Nat) : Store :=
  match addVersion s projectId code description componentName id ts with
  | .ok (s', _) => s'
  | .error _ => s

/-- Embeds `getVersions`. -/
def getVersions (s : Store) (projectId : String) : List CodeVersion :=
  match s projectId with
  | none => []
  | some history => history.versions

/-- Embeds `getCurrentVersion` (`history.versions.find(v => v.id ===
history.currentVersionId)`). -/
def getCurrentVersion (s : Store) (projectId : String) : Option CodeVersion :=
  match s projectId with
  | none => none
  | some history => history.versions.find? (fun v => v.id = history.currentVersionId)

/-- Embeds `rollbackToVersion`: returns the updated store together with the
value the source returns (`null` or the target version). -/
def rollbackToVersion (s : Store) (projectId versionId : String) :
    Store × Option CodeVersion :=
  match s projectId with
  | none => (s, none)
  | some history =>
    match history.versions.find? (fun v => v.id = versionId) with
    | none => (s, none)
    | some targetVersion =>
      (setStore s projectId { history with currentVersionId := versionId },
       some targetVersion)

/-- Embeds `deleteVersion`.  The guard `versions.length <= 1` rejects deleting
the last version.  When the deleted version was current, the new current id is
taken from the last remaining version; if the filter removed every version
(impossible with distinct ids) the source would throw a `TypeError` reading
`.id` of `undefined` before `set`, leaving the state unchanged. -/
def deleteVersion (s : Store) (projectId versionId : String) : Store :=
  match s projectId with
  | none => s
  | some history =>
    if history.versions.length ≤ 1 then s
    else
      let updatedVersions := history.versions.filter (fun v => ¬ v.id = versionId)
      if history.currentVersionId = versionId then
        match updatedVersions.getLast? with
        | none => s
        | some latestVersion =>
          setStore s projectId
            { history with versions := updatedVersions,
                           currentVersionId := latestVersion.id }
      else
        setStore s projectId
          { history with versions := updatedVersions,
                         currentVersionId := history.currentVersionId }

/-- A `Partial<CodeVersion>` argument of `updateVersion`: each present field
overrides the old one (object spread `{ ...version, ...updates }`). -/
structure VersionPatch where
  id : Option String := none
  code : Option String := none
  timestamp : Option Nat := none
  description : Option String := none
  componentName : Option String := none
  versionNumber : Option Nat := none
  parentVersionId : Option (Option String) := none
deriving Repr

/-- Object spread `{ ...version, ...updates }`. -/
def applyPatch (v : CodeVersion) (u : VersionPatch) : CodeVersion :=
  { id := u.id.getD v.id, code := u.code.getD v.code,
    timestamp := u.timestamp.getD v.timestamp,
    description := u.description.getD v.description,
    aiSuggestions := v.aiSuggestions, changes := v.changes,
    componentName := u.componentName.getD v.componentName,
    versionNumber := u.versionNumber.getD v.versionNumber,
    parentVersionId := u.parentVersionId.getD v.parentVersionId }

/-- Embeds `updateVersion`. -/
def updateVersion (s : Store) (projectId versionId : String)
    (updates : VersionPatch) : Store :=
  match s projectId with
  | none => s
  | some history =>
    setStore s projectId
      { history with
        versions := history.versions.map
          (fun version => if version.id = versionId then applyPatch version updates
                          else version) }

/-- Embeds `clearHistory`: keeps the record but with zero versions and an
empty current id. -/
def clearHistory (s : Store) (projectId : String) : Store :=
  setStore s projectId
    { projectId := projectId, versions := [], currentVersionId := "" }

/-! ## JavaScript string primitives

The JavaScript string methods the source relies on (`split`, `trim`,
`includes`) are embedded as structurally recursive functions on `List Char`
so that every concrete instance reduces in the kernel. -/

/-- JavaScript whitespace characters matched by the regex class `\s` and
trimmed by `String.prototype.trim` (restricted to the ASCII ones that occur
in source text). -/
def isJsWS (c : Char) : Bool :=
  c = ' ' ∨ c = '\t' ∨ c = '\n' ∨ c = '\r' ∨ c = '\x0b' ∨ c = '\x0c'

/-- `String.prototype.split` with a one-character separator, on character
lists (`"".split(sep)` is `[""]`, i.e. `[[]]`). -/
def splitChar (sep : Char) : List Char → List (List Char)
  | [] => [[]]
  | c :: rest =>
    if c = sep then [] :: splitChar sep rest
    else match splitChar sep rest with
         | h :: t => (c :: h) :: t
         | [] => [[c]]

/-- Joins lines back with the newline separator (inverse of `splitChar '\n'`). -/
def joinLines : List (List Char) → List Char
  | [] => []
  | [l] => l
  | l :: ls => l ++ '\n' :: joinLines ls

/-- `String.prototype.trim`. -/
def trimChars (cs : List Char) : List Char :=
  ((cs.dropWhile isJsWS).reverse.dropWhile isJsWS).reverse

/-- `code.split('\n')` as a list of line strings. -/
def splitLines (s : String) : List String :=
  (splitChar '\n' s.toList).map String.mk

/-- The three output lists of `compareVersions`. -/
structure DiffResult where
  additions : List String
  deletions : List String
  modifications : List String
deriving Repr, DecidableEq

/-- JavaScript `lines[i] || ''`: an out-of-range index yields `undefined` and
an empty line is already `''`; both coerce to `''`. -/
def lineAt (lines : List String) (i : Nat) : String := lines.getD i ""

/-- The body of the `for` loop of `compareVersions`, pushing onto the three
accumulated lists.  The arrow in the modification entry reproduces the
(mojibake) bytes of the source literal as a plain arrow. -/
def diffStep (lines1 lines2 : List String) (r : DiffResult) (i : Nat) : DiffResult :=
  let line1 := lineAt lines1 i
  let line2 := lineAt lines2 i
  if line1 = "" ∧ ¬ line2 = "" then
    { r with additions := r.additions ++ ["+ " ++ line2] }
  else if ¬ line1 = "" ∧ line2 = "" then
    { r with deletions := r.deletions ++ ["- " ++ line1] }
  else if ¬ line1 = line2 then
    { r with modifications := r.modifications ++ ["~ " ++ line1 ++ " → " ++ line2] }
  else r

/-- The diff loop of `compareVersions`: `for (let i = 0; i < maxLines; i++)`
over the two line lists. -/
def diffLines (lines1 lines2 : List String) : DiffResult :=
  let maxLines := max lines1.length lines2.length
  (List.range maxLines).foldl (diffStep lines1 lines2)
    { additions := [], deletions := [], modifications := [] }

/-- Embeds `compareVersions`: `null` when the history or either version is
missing, otherwise the positional line diff of the two versions' code
(`code.split('\n')` is `String.splitOn "\n"`). -/
def compareVersions (s : Store) (projectId versionId1 versionId2 : String) :
    Option DiffResult :=
  match s projectId with
  | none => none
  | some history =>
    match history.versions.find? (fun v => v.id = versionId1),
          history.versions.find? (fun v => v.id = versionId2) with
    | some version1, some version2 =>
      some (diffLines (splitLines version1.code) (splitLines version2.code))
    | some _, none => none
    | none, _ => none

/-- Embeds `getLatestVersion`. -/
def getLatestVersion (s : Store) (projectId : String) : Option CodeVersion :=
  match s projectId with
  | none => none
  | some history => history.versions.getLast?

/-- Embeds `hasUnsavedChanges`. -/
def hasUnsavedChanges (s : Store) (projectId currentCode : String) : Bool :=
  match getCurrentVersion s projectId with
  | some currentVersion => ¬ currentVersion.code = currentCode
  | none => true

/-! ## Sandboxed renderer (`component-preview.tsx`)

The `useMemo` body of `ComponentPreview` is embedded as a pure pipeline.
`window.Babel.transform` and the `new Function(...)` evaluation are outside
the JavaScript fragment we can embed, so they are oracle parameters; the
pipeline is additionally instrumented with a flag recording whether the
transpiler oracle was invoked. -/

/-- A regex `\w` word character: `[A-Za-z0-9_]`. -/
def isWordChar (c : Char) : Bool :=
  ('a' ≤ c ∧ c ≤ 'z') ∨ ('A' ≤ c ∧ c ≤ 'Z') ∨ ('0' ≤ c ∧ c ≤ '9') ∨ c = '_'

/-- A single or double quote character. -/
def isQuote (c : Char) : Bool := c = '"' ∨ c = Char.ofNat 39

/-- Drops a literal keyword from the front of a character list, or fails. -/
def dropKw : List Char → List Char → Option (List Char)
  | [], cs => some cs
  | _ :: _, [] => none
  | k :: ks, c :: cs => if c = k then dropKw ks cs else none

/-- Drops one-or-more whitespace (`\s+`), or fails when none is present. -/
def dropWS1 (cs : List Char) : Option (List Char) :=
  match cs with
  | [] => none
  | c :: rest => if isJsWS c then some (rest.dropWhile isJsWS) else none

/-- The tail `;?\s*$` of the import-line regex. -/
def importTail (cs : List Char) : Bool :=
  cs.all isJsWS || (match cs with
                    | c :: rest => decide (c = ';') && rest.all isJsWS
                    | [] => false)

/-- The `.*?['"];?\s*$` part after the opening quote: some later quote
character closes the literal and only `;?\s*` follows. -/
def closeQuote : List Char → Bool
  | [] => false
  | c :: rest => (isQuote c && importTail rest) || closeQuote rest

/-- Matches `from\s+['"]` followed by `closeQuote` at the head of the list. -/
def fromSeq (cs : List Char) : Bool :=
  match dropKw "from".toList cs with
  | none => false
  | some rest =>
    match dropWS1 rest with
    | none => false
    | some rest2 =>
      match rest2 with
      | c :: rest3 => isQuote c && closeQuote rest3
      | [] => false

/-- The lazy `.*?` scan for the first position where `fromSeq` matches. -/
def scanFrom : List Char → Bool
  | [] => false
  | c :: rest => fromSeq (c :: rest) || scanFrom rest

/-- One line matches `^import\s+.*?from\s+['"].*?['"];?\s*$` (the anchors are
applied per line; the source uses the `m` flag). -/
def isImportLine (line : String) : Bool :=
  match dropKw "import".toList line.toList with
  | none => false
  | some rest =>
    match dropWS1 rest with
    | none => false
    | some rest2 => scanFrom rest2

/-- `.replace(/^import\s+...$/gm, '')`: the matched text of an import line is
removed; its line terminator is untouched, leaving an empty line. -/
def stripImports (cs : List Char) : List Char :=
  joinLines ((splitChar '\n' cs).map
    (fun line => if isImportLine (String.mk line) then [] else line))

/-- `.replace(/^export\s+(default\s+)?/gm, '')` applied to one line: strip a
leading `export` + whitespace, then optionally `default` + whitespace. -/
def stripExportHead (line : List Char) : List Char :=
  match dropKw "export".toList line with
  | none => line
  | some rest =>
    match dropWS1 rest with
    | none => line
    | some rest2 =>
      match dropKw "default".toList rest2 with
      | none => rest2
      | some rest3 =>
        match dropWS1 rest3 with
        | none => rest2
        | some rest4 => rest4

/-- The export-stripping pass over every line. -/
def stripExports (cs : List Char) : List Char :=
  joinLines ((splitChar '\n' cs).map stripExportHead)

/-- The `cleanCode` computation: strip imports, strip exports, trim. -/
def cleanup (code : String) : String :=
  String.mk (trimChars (stripExports (stripImports code.toList)))

/-- One character sequence occurs inside another (`String.prototype.includes`
for a non-empty needle). -/
def hasSub (needle : List Char) : List Char → Bool
  | [] => needle.isEmpty
  | c :: rest => (dropKw needle (c :: rest)).isSome || hasSub needle rest

/-- The structural gate of the pipeline: `cleanCode.includes('function') ||
cleanCode.includes('const') || cleanCode.includes('=>')` (the source throws
when all three fail). -/
def structuralOk (cleanCode : String) : Bool :=
  hasSub "function".toList cleanCode.toList ||
  hasSub "const".toList cleanCode.toList ||
  hasSub "=>".toList cleanCode.toList

/-- Matches `(?:function|const|var|let)\s+(\w+)\s*[=\(]` anchored at the head
of the list, returning the captured `\w+` name. -/
def matchDeclAt (cs : List Char) : Option String :=
  let afterKw :=
    match dropKw "function".toList cs with
    | some r => some r
    | none =>
      match dropKw "const".toList cs with
      | some r => some r
      | none =>
        match dropKw "var".toList cs with
        | some r => some r
        | none => dropKw "let".toList cs
  match afterKw with
  | none => none
  | some rest =>
    match dropWS1 rest with
    | none => none
    | some rest2 =>
      let name := rest2.takeWhile isWordChar
      let rest3 := (rest2.dropWhile isWordChar).dropWhile isJsWS
      if name = [] then none
      else match rest3 with
           | c :: _ => if c = '=' ∨ c = '(' then some (String.mk name) else none
           | [] => none

/-- Leftmost match of the component-name regex (`cleanCode.match(...)`). -/
def extractName : List Char → Option String
  | [] => none
  | c :: rest =>
    match matchDeclAt (c :: rest) with
    | some n => some n
    | none => extractName rest

/-- The value returned by the `componentFactory` evaluation: enough of the
JavaScript value universe to express the `!Component || typeof Component !==
'function'` resolution check. -/
inductive JsVal where
  | func (tag : String)
  | nullV
  | undef
  | other (tag : String)
deriving Repr, DecidableEq

/-- The wrapper around the transpiled code: binds the sandbox primitives and
returns the component named by `actualComponentName` (or `null`). -/
def wrappedCode (transpiledCode actualComponentName : String) : String :=
  "const React = arguments[0];\n" ++
  "const useState = arguments[1];\n" ++
  "const useEffect = arguments[2];\n" ++
  "const useMemo = arguments[3];\n" ++
  "const useCallback = arguments[4];\n\n" ++
  transpiledCode ++ "\n\n" ++
  "return typeof " ++ actualComponentName ++ " !== 'undefined' ? " ++
  actualComponentName ++ " : null;"

/-- The structured failures of the `useMemo` body, one per `throw` site.  The
source throws untyped `Error`s distinguished only by message; the embedding
tags the stage as well. -/
inductive RFailure where
  | emptyInput (msg : String)
  | structuralInvalid (msg : String)
  | transpileError (msg : String)
  | evalError (msg : String)
  | resolutionError (msg : String)
deriving Repr, DecidableEq

/-- The `try` body of the `useMemo` in `ComponentPreview`, instrumented: the
second component records whether the Babel oracle (`transform`) was invoked.
`.ok none` is the `return null` taken while Babel is still loading. -/
def useMemoBody (transform : String → Except String String)
    (evalFactory : String → Except String JsVal)
    (babelLoaded : Bool) (code componentName : String) :
    Except RFailure (Option JsVal) × Bool :=
  if trimChars code.toList = [] then
    (.error (.emptyInput "No code provided to preview"), false)
  else if ¬ babelLoaded then
    (.ok none, false)
  else
    let cleanCode := cleanup code
    if ¬ structuralOk cleanCode then
      (.error (.structuralInvalid
        "Invalid component structure: component must be a function or const declaration"),
       false)
    else
      let actualComponentName := (extractName cleanCode.toList).getD componentName
      match transform cleanCode with
      | .error e => (.error (.transpileError ("JSX transpilation failed: " ++ e)), true)
      | .ok transpiledCode =>
        match evalFactory (wrappedCode transpiledCode actualComponentName) with
        | .error e => (.error (.evalError e), true)
        | .ok component =>
          match component with
          | .func tag => (.ok (some (.func tag)), true)
          | _ => (.error (.resolutionError
                   ("Component \"" ++ actualComponentName ++
                    "\" not found or is not a function")), true)

/-- The `catch` of the `useMemo`: a thrown failure becomes the `error` state
and a `null` component (`setError(errorMessage); return null`). -/
def renderedComponent (transform : String → Except String String)
    (evalFactory : String → Except String JsVal)
    (babelLoaded : Bool) (code componentName : String) :
    Option JsVal × Option RFailure :=
  match (useMemoBody transform evalFactory babelLoaded code componentName).1 with
  | .ok c => (c, none)
  | .error e => (none, some e)

/-- What the host page shows for one render attempt. -/
inductive HostView where
  | loading
  | errorPanel (e : RFailure)
  | noComponent
  | content (tag : String)
  | renderErrorPanel (msg : String)
deriving Repr, DecidableEq

/-- The render function of `ComponentPreview` together with the
`ErrorBoundary` wrapper.  `runComponent` is the oracle for executing
`<RenderedComponent />`; an `Except.error` of `runComponent` is an exception
thrown during the render phase, which `getDerivedStateFromError` converts to
the boundary's fallback panel.  The outer `Except String` is the channel an
uncaught exception would escape through: the theorem for the safety claim
shows it is never used. -/
def componentPreview (transform : String → Except String String)
    (evalFactory : String → Except String JsVal)
    (runComponent : JsVal → Except String String)
    (babelLoaded : Bool) (code componentName : String) :
    Except String HostView :=
  if ¬ babelLoaded then .ok .loading
  else
    match renderedComponent transform evalFactory babelLoaded code componentName with
    | (_, some e) => .ok (.errorPanel e)
    | (none, none) => .ok .noComponent
    | (some component, none) =>
      match runComponent component with
      | .ok tag => .ok (.content tag)
      | .error m => .ok (.renderErrorPanel m)

/-! ## Specification-side descriptions and the reachability relation -/

/-- The spec's description of a positional addition at position `i`: blank or
absent in the first text, non-blank in the second. -/
def addEntry (lines1 lines2 : List String) (i : Nat) : Option String :=
  if lineAt lines1 i = "" ∧ ¬ lineAt lines2 i = "" then
    some ("+ " ++ lineAt lines2 i)
  else none

/-- The spec's description of a positional deletion at position `i`:
non-blank in the first text, blank in the second. -/
def delEntry (lines1 lines2 : List String) (i : Nat) : Option String :=
  if ¬ lineAt lines1 i = "" ∧ lineAt lines2 i = "" then
    some ("- " ++ lineAt lines1 i)
  else none

/-- The spec's description of a positional modification at position `i`: both
non-blank and different. -/
def modEntry (lines1 lines2 : List String) (i : Nat) : Option String :=
  if ¬ lineAt lines1 i = "" ∧ ¬ lineAt lines2 i = "" ∧
     ¬ lineAt lines1 i = lineAt lines2 i then
    some ("~ " ++ lineAt lines1 i ++ " → " ++ lineAt lines2 i)
  else none

/-- The store states reachable by the store's actions, starting from the
zustand initial state.  Fresh `uuidv4()` outputs are modelled by requiring the
id passed to `addVersion` to differ from every id already in that project's
history; timestamps are arbitrary.  `updateVersion` appears with a label-only
patch, the one cosmetic edit the data model allows after creation. -/
inductive Reachable : Store → Prop where
  | empty : Reachable emptyStore
  | init (s : Store) (p code name id : String) (ts : Nat) :
      Reachable s → Reachable (initializeHistory s p code name id ts)
  | add (s : Store) (p code desc : String) (cn : Option String) (id : String) (ts : Nat) :
      Reachable s →
      (∀ h, s p = some h → ∀ v ∈ h.versions, ¬ v.id = id) →
      Reachable (addVersionState s p code desc cn id ts)
  | rollback (s : Store) (p vid : String) :
      Reachable s → Reachable ((rollbackToVersion s p vid).1)
  | delete (s : Store) (p vid : String) :
      Reachable s → Reachable (deleteVersion s p vid)
  | updateLabel (s : Store) (p vid desc : String) :
      Reachable s → Reachable (updateVersion s p vid { description := some desc })
  | clear (s : Store) (p : String) :
      Reachable s → Reachable (clearHistory s p)

/-- The invariant of the claim: the current pointer names a version that
exists in the same history, unless the history is the degenerate empty one
produced by `clearHistory`. -/
def CurrentOK (h : VersionHistory) : Prop :=
  h.versions = [] ∨ ∃ v ∈ h.versions, v.id = h.currentVersionId

/-- A concrete run: initialize project `p`. -/
def exStore1 : Store := initializeHistory emptyStore "p" "c1" "N" "id1" 0

/-- ... add a second version ... -/
def exStore2 : Store := addVersionState exStore1 "p" "c2" "d" none "id2" 1

/-- ... and roll back to the first version, so the current version (`id1`) is
no longer the latest (`id2`). -/
def exStore3 : Store := (rollbackToVersion exStore2 "p" "id1").1

/-- The versions list of `exStore2`'s history, for witness statements. -/
def exVersions2 : List CodeVersion :=
  [{ id := "id1", code := "c1", timestamp := 0,
     description := "Initial version", componentName := "N",
     versionNumber := 1 },
   { id := "id2", code := "c2", timestamp := 1, description := "d",
     componentName := "N", versionNumber := 2,
     parentVersionId := some "id1" }]

/-- A concrete run for the diff claims: version `id1` holds `"a"`, version
`id2` holds `"a\nb"` (one extra non-blank trailing line). -/
def exStoreDiff : Store :=
  addVersionState (initializeHistory emptyStore "p" "a" "N" "id1" 0)
    "p" "a\nb" "d" none "id2" 1

/-! ## Lemmas about the positional diff -/

theorem diffStep_entries (l1 l2 : List String) (r : DiffResult) (i : Nat) :
    diffStep l1 l2 r i =
      { additions := r.additions ++ (addEntry l1 l2 i).toList,
        deletions := r.deletions ++ (delEntry l1 l2 i).toList,
        modifications := r.modifications ++ (modEntry l1 l2 i).toList } := by
  simp only [diffStep, addEntry, delEntry, modEntry]
  by_cases h1 : lineAt l1 i = "" <;> by_cases h2 : lineAt l2 i = "" <;>
    by_cases h3 : lineAt l1 i = lineAt l2 i <;>
    simp [h1, h2, h3]

theorem foldl_diffStep (l1 l2 : List String) (idxs : List Nat) (r : DiffResult) :
    idxs.foldl (diffStep l1 l2) r =
      { additions := r.additions ++ idxs.filterMap (addEntry l1 l2),
        deletions := r.deletions ++ idxs.filterMap (delEntry l1 l2),
        modifications := r.modifications ++ idxs.filterMap (modEntry l1 l2) } := by
  induction idxs generalizing r with
  | nil => simp
  | cons i t ih =>
    rw [List.foldl_cons, diffStep_entries, ih]
    cases ha : addEntry l1 l2 i <;> cases hd : delEntry l1 l2 i <;>
      cases hm : modEntry l1 l2 i <;>
      simp [List.filterMap_cons, ha, hd, hm]

theorem diffLines_entries (l1 l2 : List String) :
    diffLines l1 l2 =
      { additions :=
          (List.range (max l1.length l2.length)).filterMap (addEntry l1 l2),
        deletions :=
          (List.range (max l1.length l2.length)).filterMap (delEntry l1 l2),
        modifications :=
          (List.range (max l1.length l2.length)).filterMap (modEntry l1 l2) } := by
  simp [diffLines, foldl_diffStep]

theorem addEntry_same_line (l1 l2 : List String) (i : Nat)
    (h : lineAt l1 i = lineAt l2 i) : addEntry l1 l2 i = none := by
  simp only [addEntry, h]
  simp

theorem delEntry_same_line (l1 l2 : List String) (i : Nat)
    (h : lineAt l1 i = lineAt l2 i) : delEntry l1 l2 i = none := by
  simp only [delEntry, h]
  simp

theorem modEntry_same_line (l1 l2 : List String) (i : Nat)
    (h : lineAt l1 i = lineAt l2 i) : modEntry l1 l2 i = none := by
  simp only [modEntry, h]
  simp

theorem diffLines_self (l : List String) :
    diffLines l l = { additions := [], deletions := [], modifications := [] } := by
  rw [diffLines_entries]
  simp only [DiffResult.mk.injEq]
  refine ⟨?_, ?_, ?_⟩ <;>
    · rw [List.filterMap_eq_nil_iff]
      intro i _
      first
        | exact addEntry_same_line l l i rfl
        | exact delEntry_same_line l l i rfl
        | exact modEntry_same_line l l i rfl

theorem lineAt_append_self (l : List String) (L : String) (i : Nat)
    (h : i < l.length) : lineAt (l ++ [L]) i = lineAt l i := by
  unfold lineAt
  rw [List.getD_append _ _ _ _ h]

theorem lineAt_of_len_le (l : List String) (i : Nat) (h : l.length ≤ i) :
    lineAt l i = "" :=
  List.getD_eq_default _ _ h

theorem lineAt_append_last (l : List String) (L : String) :
    lineAt (l ++ [L]) l.length = L := by
  unfold lineAt
  rw [List.getD_append_right _ _ _ _ (Nat.le_refl _), Nat.sub_self]
  rfl

theorem diffLines_trailing (l : List String) (L : String) (hL : ¬ L = "") :
    diffLines l (l ++ [L]) =
      { additions := ["+ " ++ L], deletions := [], modifications := [] } := by
  rw [diffLines_entries]
  have hmax : max l.length (l ++ [L]).length = l.length + 1 := by
    simp
  rw [hmax, List.range_succ]
  have hsame : ∀ i ∈ List.range l.length, lineAt l i = lineAt (l ++ [L]) i := by
    intro i hi
    rw [List.mem_range] at hi
    exact (lineAt_append_self l L i hi).symm
  have hlast1 : lineAt l l.length = "" := lineAt_of_len_le l l.length (Nat.le_refl _)
  have hlast2 : lineAt (l ++ [L]) l.length = L := lineAt_append_last l L
  simp only [DiffResult.mk.injEq]
  refine ⟨?_, ?_, ?_⟩
  · rw [List.filterMap_append]
    have h1 : (List.range l.length).filterMap (addEntry l (l ++ [L])) = [] := by
      rw [List.filterMap_eq_nil_iff]
      intro i hi
      exact addEntry_same_line _ _ i (hsame i hi)
    rw [h1]
    simp [addEntry, hlast1, hlast2, hL]
  · rw [List.filterMap_append]
    have h1 : (List.range l.length).filterMap (delEntry l (l ++ [L])) = [] := by
      rw [List.filterMap_eq_nil_iff]
      intro i hi
      exact delEntry_same_line _ _ i (hsame i hi)
    rw [h1]
    simp [delEntry, hlast1, hlast2, hL]
  · rw [List.filterMap_append]
    have h1 : (List.range l.length).filterMap (modEntry l (l ++ [L])) = [] := by
      rw [List.filterMap_eq_nil_iff]
      intro i hi
      exact modEntry_same_line _ _ i (hsame i hi)
    rw [h1]
    simp [modEntry, hlast1, hlast2, hL]

/-- C8: `compareVersions` is a positional line diff: comparing line `i` of A
with line `i` of B at every position up to the longer text, it reports an
addition when the position is blank/absent in A and non-blank in B, a
deletion when non-blank in A and blank in B, and a modification when both are
non-blank and differ; on identical sourceText all three lists are empty, and
when B is A plus one extra non-blank trailing line that line is the only
addition and deletions/modifications are empty. -/
theorem c8_compare_positional (s : Store) (p idA idB : String)
    {h : VersionHistory} {vA vB : CodeVersion}
    (hs : s p = some h)
    (hA : h.versions.find? (fun v => v.id = idA) = some vA)
    (hB : h.versions.find? (fun v => v.id = idB) = some vB) :
    (compareVersions s p idA idB =
      some { additions :=
               (List.range (max (splitLines vA.code).length
                                (splitLines vB.code).length)).filterMap
                 (addEntry (splitLines vA.code) (splitLines vB.code)),
             deletions :=
               (List.range (max (splitLines vA.code).length
                                (splitLines vB.code).length)).filterMap
                 (delEntry (splitLines vA.code) (splitLines vB.code)),
             modifications :=
               (List.range (max (splitLines vA.code).length
                                (splitLines vB.code).length)).filterMap
                 (modEntry (splitLines vA.code) (splitLines vB.code)) }) ∧
    (vA.code = vB.code →
      compareVersions s p idA idB =
        some { additions := [], deletions := [], modifications := [] }) ∧
    (∀ L, ¬ L = "" → splitLines vB.code = splitLines vA.code ++ [L] →
      compareVersions s p idA idB =
        some { additions := ["+ " ++ L], deletions := [], modifications := [] }) := by
  have hcmp : compareVersions s p idA idB =
      some (diffLines (splitLines vA.code) (splitLines vB.code)) := by
    unfold compareVersions
    rw [hs]
    simp [hA, hB]
  refine ⟨?_, ?_, ?_⟩
  · rw [hcmp, diffLines_entries]
  · intro hcode
    rw [hcmp, hcode, diffLines_self]
  · intro L hL htrail
    rw [hcmp, htrail, diffLines_trailing _ _ hL]

/-- Witness for C8 at a concrete two-version history where the second
version's code is the first plus one extra trailing line. -/
theorem c8_compare_positional_witness :
    compareVersions exStoreDiff "p" "id1" "id2" =
      some { additions := ["+ b"], deletions := [], modifications := [] } :=
  (c8_compare_positional exStoreDiff "p" "id1" "id2" rfl rfl rfl).2.2
    "b" (by decide) (by decide)

/-- C5: on a history containing exactly one version, `deleteVersion` is
rejected and leaves the whole store unchanged: the history still contains
exactly that version and `currentVersionId` is untouched. -/
theorem c5_delete_last_rejected (s : Store) (p vid : String)
    {h : VersionHistory} (hs : s p = some h)
    (hlen : h.versions.length = 1) :
    deleteVersion s p vid = s := by
  unfold deleteVersion
  rw [hs]
  simp [hlen]

/-- Witness for C5 at a freshly initialized single-version history. -/
theorem c5_delete_last_rejected_witness :
    deleteVersion exStore1 "p" "id1" = exStore1 :=
  c5_delete_last_rejected exStore1 "p" "id1" rfl (by decide)

/-- C9: `rollbackToVersion` with an existing version id changes only
`currentVersionId` — the versions sequence is exactly the old one — and
returns the target version; with a nonexistent id it returns the not-found
signal (`null`) and the store is entirely unchanged. -/
theorem c9_rollback (s : Store) (p vid : String)
    {h : VersionHistory} (hs : s p = some h) :
    (∀ tv, h.versions.find? (fun v => v.id = vid) = some tv →
      (rollbackToVersion s p vid).2 = some tv ∧
      tv ∈ h.versions ∧ tv.id = vid ∧
      (rollbackToVersion s p vid).1 p =
        some { projectId := h.projectId, versions := h.versions,
               currentVersionId := vid } ∧
      (∀ q, ¬ q = p → (rollbackToVersion s p vid).1 q = s q)) ∧
    ((∀ v ∈ h.versions, ¬ v.id = vid) →
      rollbackToVersion s p vid = (s, none)) := by
  constructor
  · intro tv htv
    have hmem : tv ∈ h.versions := List.mem_of_find?_eq_some htv
    have hid : tv.id = vid := by
      have hd := List.find?_some htv
      simpa using hd
    have hroll : rollbackToVersion s p vid =
        (setStore s p { h with currentVersionId := vid }, some tv) := by
      unfold rollbackToVersion
      rw [hs]
      simp [htv]
    refine ⟨by rw [hroll], hmem, hid, ?_, ?_⟩
    · rw [hroll]
      simp [setStore]
    · intro q hq
      rw [hroll]
      simp [setStore, hq]
  · intro hnone
    have hfind : h.versions.find? (fun v => v.id = vid) = none := by
      rw [List.find?_eq_none]
      intro v hv
      simpa using hnone v hv
    unfold rollbackToVersion
    rw [hs]
    simp [hfind]

/-- Witness for C9: rolling the two-version history back to the first
version returns that version and only moves the current pointer. -/
theorem c9_rollback_witness :
    (rollbackToVersion exStore2 "p" "id1").2 =
      some { id := "id1", code := "c1", timestamp := 0,
             description := "Initial version", componentName := "N",
             versionNumber := 1 } ∧
    (rollbackToVersion exStore2 "p" "id1").1 "p" =
      some { projectId := "p",
             versions :=
               [{ id := "id1", code := "c1", timestamp := 0,
                  description := "Initial version", componentName := "N",
                  versionNumber := 1 },
                { id := "id2", code := "c2", timestamp := 1,
                  description := "d", componentName := "N",
                  versionNumber := 2, parentVersionId := some "id1" }],
             currentVersionId := "id1" } := by
  have hx := (c9_rollback exStore2 "p" "id1" rfl).1
    { id := "id1", code := "c1", timestamp := 0,
      description := "Initial version", componentName := "N",
      versionNumber := 1 } rfl
  exact ⟨hx.1, hx.2.2.2.1⟩

/-- C10: on a history that exists but has zero versions (the `clearHistory`
state), `addVersion` does not signal `HistoryNotFound` and does not append:
it fails with the `TypeError` of reading a property of the nonexistent latest
version (`versions[versions.length - 1]` is `undefined`), leaving the store
unchanged. -/
theorem c10_add_on_cleared (s : Store) (p : String)
    {h : VersionHistory} (hs : s p = some h) (hv : h.versions = [])
    (code desc : String) (cn : Option String) (id : String) (ts : Nat) :
    addVersion s p code desc cn id ts = .error .typeErrorUndefined ∧
    ¬ addVersion s p code desc cn id ts = .error .historyNotFound ∧
    addVersionState s p code desc cn id ts = s := by
  have hadd : addVersion s p code desc cn id ts = .error .typeErrorUndefined := by
    unfold addVersion
    rw [hs]
    simp [hv]
  refine ⟨hadd, ?_, ?_⟩
  · rw [hadd]
    simp
  · unfold addVersionState
    rw [hadd]

/-- Witness for C10 at the state produced by `clearHistory`. -/
theorem c10_add_on_cleared_witness :
    addVersion (clearHistory exStore1 "p") "p" "c" "d" none "idX" 5 =
      .error .typeErrorUndefined ∧
    ¬ addVersion (clearHistory exStore1 "p") "p" "c" "d" none "idX" 5 =
      .error .historyNotFound ∧
    addVersionState (clearHistory exStore1 "p") "p" "c" "d" none "idX" 5 =
      clearHistory exStore1 "p" :=
  c10_add_on_cleared (clearHistory exStore1 "p") "p" rfl rfl "c" "d" none "idX" 5

/-- C1 counterexample: after initialize, add, and a rollback to the first
version, the current version is `id1`, yet the version appended by the next
`addVersion` records `parentVersionId = "id2"` — the latest version's id, not
the id of the version that was current immediately before the call. -/
theorem c1_counterexample :
    (getCurrentVersion exStore3 "p").map (fun v => v.id) = some "id1" ∧
    (match addVersion exStore3 "p" "c3" "d" none "id3" 2 with
     | .ok (_, v) => v.parentVersionId
     | .error _ => none) = some "id2" ∧
    ¬ ("id2" = "id1") := by decide

/-- C1 amended: `addVersion` appends exactly one new version whose
`versionNumber` is the **latest** (last) version's number plus one — the
previous maximum plus one whenever the numbers are bounded by the last
entry's, as in every store-produced history — and whose `parentVersionId` is
the **latest** version's id (which coincides with the previous current
version's id only when no rollback moved the current pointer off the latest
version); the new version is made current.  With no history for the project
the call fails with `HistoryNotFound`. -/
theorem c1_amended (s : Store) (p : String) :
    (s p = none →
      ∀ code desc cn id ts,
        addVersion s p code desc cn id ts = .error .historyNotFound) ∧
    (∀ h latest, s p = some h → h.versions.getLast? = some latest →
      (∀ v ∈ h.versions, v.versionNumber ≤ latest.versionNumber) →
      ∀ code desc cn id ts,
        ∃ s' v', addVersion s p code desc cn id ts = .ok (s', v') ∧
          v'.versionNumber = latest.versionNumber + 1 ∧
          (∀ w ∈ h.versions, w.versionNumber < v'.versionNumber) ∧
          v'.parentVersionId = some latest.id ∧
          v'.id = id ∧
          s' p = some { projectId := h.projectId,
                        versions := h.versions ++ [v'],
                        currentVersionId := v'.id } ∧
          (∀ q, ¬ q = p → s' q = s q)) := by
  constructor
  · intro hnone code desc cn id ts
    unfold addVersion
    rw [hnone]
  · intro h latest hs hlast hmax code desc cn id ts
    have hadd : addVersion s p code desc cn id ts =
        .ok (setStore s p
              { h with
                versions := h.versions ++
                  [{ id := id, code := code, timestamp := ts,
                     description := desc,
                     componentName := jsOrName cn latest.componentName,
                     versionNumber := latest.versionNumber + 1,
                     parentVersionId := some latest.id }],
                currentVersionId := id },
             { id := id, code := code, timestamp := ts, description := desc,
               componentName := jsOrName cn latest.componentName,
               versionNumber := latest.versionNumber + 1,
               parentVersionId := some latest.id }) := by
      unfold addVersion
      rw [hs]
      simp [hlast]
    refine ⟨_, _, hadd, rfl, ?_, rfl, rfl, ?_, ?_⟩
    · intro w hw
      exact Nat.lt_succ_of_le (hmax w hw)
    · simp [setStore]
    · intro q hq
      simp [setStore, hq]

/-- Witness for C1 amended at the single-version history `exStore1`. -/
theorem c1_amended_witness :
    ∃ s' v', addVersion exStore1 "p" "c2" "d" none "id2" 1 = .ok (s', v') ∧
      v'.versionNumber = 2 ∧
      (∀ w ∈ [({ id := "id1", code := "c1", timestamp := 0,
                 description := "Initial version", componentName := "N",
                 versionNumber := 1 } : CodeVersion)],
        w.versionNumber < v'.versionNumber) ∧
      v'.parentVersionId = some "id1" ∧
      v'.id = "id2" ∧
      s' "p" = some { projectId := "p",
                      versions :=
                        [{ id := "id1", code := "c1", timestamp := 0,
                           description := "Initial version",
                           componentName := "N", versionNumber := 1 }] ++ [v'],
                      currentVersionId := v'.id } ∧
      (∀ q, ¬ q = "p" → s' q = exStore1 q) :=
  (c1_amended exStore1 "p").2
    { projectId := "p",
      versions := [{ id := "id1", code := "c1", timestamp := 0,
                     description := "Initial version", componentName := "N",
                     versionNumber := 1 }],
      currentVersionId := "id1" }
    { id := "id1", code := "c1", timestamp := 0,
      description := "Initial version", componentName := "N",
      versionNumber := 1 }
    rfl rfl (by decide) "c2" "d" none "id2" 1

/-! ## Lemmas for deletion -/

theorem filter_ne_length_of_nodup (l : List CodeVersion) (vid : String)
    (hnd : (l.map (fun v => v.id)).Nodup)
    (hmem : ∃ v ∈ l, v.id = vid) :
    (l.filter (fun v => ¬ v.id = vid)).length + 1 = l.length := by
  induction l with
  | nil => simp at hmem
  | cons a t ih =>
    rw [List.map_cons, List.nodup_cons] at hnd
    by_cases ha : a.id = vid
    · have hrest : t.filter (fun v => ¬ v.id = vid) = t := by
        rw [List.filter_eq_self]
        intro w hw
        have hne : ¬ w.id = a.id := by
          intro hcontra
          exact hnd.1 (hcontra ▸ List.mem_map_of_mem (fun v => v.id) hw)
        simp [ha ▸ hne]
      have hcond : (decide ¬ a.id = vid) = false := by simp [ha]
      rw [List.filter_cons]
      simp only [hcond, if_false, Bool.false_eq_true, hrest, List.length_cons]
    · obtain ⟨v, hv, hvid⟩ := hmem
      have hvt : v ∈ t := by
        cases List.mem_cons.mp hv with
        | inl heq => exact absurd (heq ▸ hvid) ha
        | inr ht => exact ht
      have hrec := ih hnd.2 ⟨v, hvt, hvid⟩
      have hcond : (decide ¬ a.id = vid) = true := by simp [ha]
      rw [List.filter_cons]
      simp only [hcond, if_true, List.length_cons]
      omega

theorem pairwise_getLast_max (l : List CodeVersion) (m : CodeVersion)
    (hp : l.Pairwise (fun a b => a.versionNumber < b.versionNumber))
    (hm : l.getLast? = some m) :
    ∀ w ∈ l, w.versionNumber ≤ m.versionNumber := by
  induction l with
  | nil => simp at hm
  | cons a t ih =>
    cases t with
    | nil =>
      simp at hm
      subst hm
      intro w hw
      simp at hw
      subst hw
      exact Nat.le_refl _
    | cons b t2 =>
      rw [List.getLast?_cons_cons] at hm
      rw [List.pairwise_cons] at hp
      have hrec := ih hp.2 hm
      intro w hw
      cases List.mem_cons.mp hw with
      | inl heq =>
        have hmmem : m ∈ b :: t2 := List.mem_of_getLast?_eq_some hm
        exact heq ▸ Nat.le_of_lt (hp.1 m hmmem)
      | inr ht => exact hrec w ht

/-- C4: on a history with at least two versions, pairwise-distinct ids and
sequence numbers increasing along the list (as in every store-produced
history), deleting the current version removes exactly that version —
every other version is retained and the length drops by one — and moves
`currentVersionId` to the remaining version with the maximum
`sequenceNumber`. -/
theorem c4_delete_current (s : Store) (p vid : String)
    {h : VersionHistory} (hs : s p = some h)
    (hnd : (h.versions.map (fun v => v.id)).Nodup)
    (hsort : h.versions.Pairwise (fun a b => a.versionNumber < b.versionNumber))
    (hlen : 2 ≤ h.versions.length)
    (hcur : h.currentVersionId = vid)
    (hmem : ∃ v ∈ h.versions, v.id = vid) :
    ∃ m, (h.versions.filter (fun v => ¬ v.id = vid)).getLast? = some m ∧
      deleteVersion s p vid =
        setStore s p
          { h with versions := h.versions.filter (fun v => ¬ v.id = vid),
                   currentVersionId := m.id } ∧
      (h.versions.filter (fun v => ¬ v.id = vid)).length + 1 =
        h.versions.length ∧
      (∀ w ∈ h.versions, ¬ w.id = vid →
        w ∈ h.versions.filter (fun v => ¬ v.id = vid)) ∧
      m ∈ h.versions.filter (fun v => ¬ v.id = vid) ∧
      (∀ w ∈ h.versions.filter (fun v => ¬ v.id = vid),
        w.versionNumber ≤ m.versionNumber) := by
  have hflen := filter_ne_length_of_nodup h.versions vid hnd hmem
  have hfne : ¬ h.versions.filter (fun v => ¬ v.id = vid) = [] := by
    intro hnil
    rw [hnil] at hflen
    simp at hflen
    omega
  obtain ⟨m, hm⟩ : ∃ m,
      (h.versions.filter (fun v => ¬ v.id = vid)).getLast? = some m := by
    cases hg : (h.versions.filter (fun v => ¬ v.id = vid)).getLast? with
    | none => exact absurd (List.getLast?_eq_none_iff.mp hg) hfne
    | some m => exact ⟨m, rfl⟩
  have hpf : (h.versions.filter (fun v => ¬ v.id = vid)).Pairwise
      (fun a b => a.versionNumber < b.versionNumber) :=
    hsort.sublist (List.filter_sublist _)
  refine ⟨m, hm, ?_, hflen, ?_, List.mem_of_getLast?_eq_some hm,
          pairwise_getLast_max _ m hpf hm⟩
  · unfold deleteVersion
    rw [hs]
    have hnotle : ¬ h.versions.length ≤ 1 := by omega
    simp only [hnotle, if_false, hcur, hm]
    simp
  · intro w hw hwid
    rw [List.mem_filter]
    exact ⟨hw, by simpa using hwid⟩

/-- Witness for C4: deleting the current (second) version of the concrete
two-version history moves the current pointer to the first version. -/
theorem c4_delete_current_witness :
    ∃ m, (exVersions2.filter (fun v => ¬ v.id = "id2")).getLast? = some m ∧
      deleteVersion exStore2 "p" "id2" =
        setStore exStore2 "p"
          { projectId := "p",
            versions := exVersions2.filter (fun v => ¬ v.id = "id2"),
            currentVersionId := m.id } ∧
      (exVersions2.filter (fun v => ¬ v.id = "id2")).length + 1 =
        exVersions2.length ∧
      (∀ w ∈ exVersions2, ¬ w.id = "id2" →
        w ∈ exVersions2.filter (fun v => ¬ v.id = "id2")) ∧
      m ∈ exVersions2.filter (fun v => ¬ v.id = "id2") ∧
      (∀ w ∈ exVersions2.filter (fun v => ¬ v.id = "id2"),
        w.versionNumber ≤ m.versionNumber) :=
  c4_delete_current exStore2 "p" "id2" rfl (by decide) (by decide)
    (by decide) (by decide) (by decide)

/-! ## The current-version invariant -/

theorem setStore_cases (s : Store) (p0 : String) (hh : VersionHistory)
    (p : String) (h : VersionHistory) (hp : setStore s p0 hh p = some h) :
    (p = p0 ∧ h = hh) ∨ (¬ p = p0 ∧ s p = some h) := by
  unfold setStore at hp
  by_cases hpq : p = p0
  · rw [if_pos hpq] at hp
    exact Or.inl ⟨hpq, (Option.some.inj hp).symm⟩
  · rw [if_neg hpq] at hp
    exact Or.inr ⟨hpq, hp⟩

theorem storeOK_of_reachable (s : Store) (hr : Reachable s) :
    ∀ p h, s p = some h → CurrentOK h := by
  induction hr with
  | empty =>
    intro p h hp
    exact absurd hp (by simp [emptyStore])
  | init s0 p0 code name id ts _ ih =>
    intro p h hp
    unfold initializeHistory at hp
    rcases setStore_cases _ _ _ _ _ hp with ⟨_, rfl⟩ | ⟨_, hp'⟩
    · exact Or.inr ⟨_, List.mem_singleton_self _, rfl⟩
    · exact ih p h hp'
  | add s0 p0 code desc cn id ts _ _ ih =>
    intro p h hp
    unfold addVersionState addVersion at hp
    cases hsp : s0 p0 with
    | none =>
      rw [hsp] at hp
      exact ih p h hp
    | some hist =>
      rw [hsp] at hp
      cases hlast : hist.versions.getLast? with
      | none =>
        simp only [hlast] at hp
        exact ih p h hp
      | some latest =>
        simp only [hlast] at hp
        rcases setStore_cases _ _ _ _ _ hp with ⟨_, rfl⟩ | ⟨_, hp'⟩
        · exact Or.inr ⟨_, List.mem_append_right _ (List.mem_singleton_self _), rfl⟩
        · exact ih p h hp'
  | rollback s0 p0 vid _ ih =>
    intro p h hp
    unfold rollbackToVersion at hp
    cases hsp : s0 p0 with
    | none =>
      rw [hsp] at hp
      exact ih p h hp
    | some hist =>
      rw [hsp] at hp
      cases hfind : hist.versions.find? (fun v => v.id = vid) with
      | none =>
        simp only [hfind] at hp
        exact ih p h hp
      | some tv =>
        simp only [hfind] at hp
        rcases setStore_cases _ _ _ _ _ hp with ⟨_, rfl⟩ | ⟨_, hp'⟩
        · refine Or.inr ⟨tv, List.mem_of_find?_eq_some hfind, ?_⟩
          have hd := List.find?_some hfind
          simpa using hd
        · exact ih p h hp'
  | delete s0 p0 vid _ ih =>
    intro p h hp
    unfold deleteVersion at hp
    cases hsp : s0 p0 with
    | none =>
      rw [hsp] at hp
      exact ih p h hp
    | some hist =>
      rw [hsp] at hp
      by_cases hle : hist.versions.length ≤ 1
      · simp only [hle, if_true] at hp
        exact ih p h hp
      · simp only [hle, if_false] at hp
        by_cases hcur : hist.currentVersionId = vid
        · simp only [hcur, if_true] at hp
          cases hlast : (hist.versions.filter (fun v => ¬ v.id = vid)).getLast? with
          | none =>
            simp only [hlast] at hp
            exact ih p h hp
          | some lv =>
            simp only [hlast] at hp
            rcases setStore_cases _ _ _ _ _ hp with ⟨_, rfl⟩ | ⟨_, hp'⟩
            · exact Or.inr ⟨lv, List.mem_of_getLast?_eq_some hlast, rfl⟩
            · exact ih p h hp'
        · simp only [hcur, if_false] at hp
          rcases setStore_cases _ _ _ _ _ hp with ⟨_, rfl⟩ | ⟨_, hp'⟩
          · rcases ih p0 hist hsp with hnil | ⟨v, hv, hvid⟩
            · rw [hnil] at hle
              exact absurd (by simp) hle
            · refine Or.inr ⟨v, List.mem_filter.mpr ⟨hv, ?_⟩, hvid⟩
              simp only [decide_eq_true_eq]
              intro hcontra
              exact hcur (hvid ▸ hcontra ▸ rfl)
          · exact ih p h hp'
  | updateLabel s0 p0 vid desc _ ih =>
    intro p h hp
    unfold updateVersion at hp
    cases hsp : s0 p0 with
    | none =>
      rw [hsp] at hp
      exact ih p h hp
    | some hist =>
      rw [hsp] at hp
      simp only at hp
      rcases setStore_cases _ _ _ _ _ hp with ⟨_, rfl⟩ | ⟨_, hp'⟩
      · rcases ih p0 hist hsp with hnil | ⟨v, hv, hvid⟩
        · exact Or.inl (by simp [hnil])
        · refine Or.inr ⟨if v.id = vid
                           then applyPatch v { description := some desc }
                           else v, ?_, ?_⟩
          · exact List.mem_map_of_mem _ hv
          · by_cases hc : v.id = vid
            · rw [if_pos hc]
              simpa [applyPatch] using hvid
            · rw [if_neg hc]
              exact hvid
      · exact ih p h hp'
  | clear s0 p0 _ ih =>
    intro p h hp
    unfold clearHistory at hp
    rcases setStore_cases _ _ _ _ _ hp with ⟨_, rfl⟩ | ⟨_, hp'⟩
    · exact Or.inl rfl
    · exact ih p h hp'

/-- C6: in every store state reachable by the store's operations
(`initializeHistory`, `addVersion`, `rollbackToVersion`, `deleteVersion`,
label-only `updateVersion`, `clearHistory`), `currentVersionId` refers to a
version that exists in the same history, except in the degenerate
zero-version state. -/
theorem c6_current_version_exists (s : Store) (hr : Reachable s)
    (p : String) (h : VersionHistory) (hs : s p = some h) :
    h.versions = [] ∨ ∃ v ∈ h.versions, v.id = h.currentVersionId :=
  storeOK_of_reachable s hr p h hs

/-- Witness for C6 at the reachable state `exStore1`. -/
theorem c6_current_version_exists_witness :
    ({ projectId := "p",
       versions := [{ id := "id1", code := "c1", timestamp := 0,
                      description := "Initial version", componentName := "N",
                      versionNumber := 1 }],
       currentVersionId := "id1" } : VersionHistory).versions = [] ∨
    ∃ v ∈ ({ projectId := "p",
             versions := [{ id := "id1", code := "c1", timestamp := 0,
                            description := "Initial version",
                            componentName := "N",
                            versionNumber := 1 }],
             currentVersionId := "id1" } : VersionHistory).versions,
      v.id = "id1" :=
  c6_current_version_exists exStore1
    (Reachable.init emptyStore "p" "c1" "N" "id1" 0 Reachable.empty)
    "p" _ rfl

/-! ## Renderer claims -/

/-- C3: for every source text, component name, and behaviour of the
transpile/instantiate/render oracles, the preview renders to a definite host
view — a success or a structured failure panel — and never propagates an
exception past the renderer or the error boundary (the outer `Except.error`
channel is never used). -/
theorem c3_never_throws (transform : String → Except String String)
    (evalFactory : String → Except String JsVal)
    (runComponent : JsVal → Except String String)
    (babelLoaded : Bool) (code componentName : String) :
    ∃ v, componentPreview transform evalFactory runComponent babelLoaded
           code componentName = .ok v ∧
      (v = .loading ∨ v = .noComponent ∨ (∃ e, v = .errorPanel e) ∨
       (∃ t, v = .content t) ∨ (∃ m, v = .renderErrorPanel m)) := by
  unfold componentPreview
  cases babelLoaded with
  | false =>
    exact ⟨.loading, by simp, Or.inl rfl⟩
  | true =>
    rcases hrc : renderedComponent transform evalFactory true code componentName
      with ⟨c, e⟩
    cases e with
    | some err =>
      exact ⟨.errorPanel err, by simp [hrc],
        Or.inr (Or.inr (Or.inl ⟨err, rfl⟩))⟩
    | none =>
      cases c with
      | none =>
        exact ⟨.noComponent, by simp [hrc], Or.inr (Or.inl rfl)⟩
      | some comp =>
        cases hrun : runComponent comp with
        | ok t =>
          exact ⟨.content t, by simp [hrc, hrun],
            Or.inr (Or.inr (Or.inr (Or.inl ⟨t, rfl⟩)))⟩
        | error m =>
          exact ⟨.renderErrorPanel m, by simp [hrc, hrun],
            Or.inr (Or.inr (Or.inr (Or.inr ⟨m, rfl⟩)))⟩

/-- C7: when the (non-empty) source text fails the structural check, the
pipeline yields the structural-invalid failure and the transpiler oracle is
never invoked (the instrumentation flag stays `false`), for every behaviour
of the oracles. -/
theorem c7_structural_before_transpile
    (transform : String → Except String String)
    (evalFactory : String → Except String JsVal)
    (code componentName : String)
    (hne : ¬ trimChars code.toList = [])
    (hstruct : structuralOk (cleanup code) = false) :
    useMemoBody transform evalFactory true code componentName =
      (.error (.structuralInvalid
        "Invalid component structure: component must be a function or const declaration"),
       false) := by
  unfold useMemoBody
  rw [if_neg hne]
  simp [hstruct]

/-- Witness for C7: `"hello world"` has no function/const/arrow shape, so the
structural failure fires with the transpile flag still `false`, whatever the
oracles would have answered. -/
theorem c7_structural_before_transpile_witness :
    useMemoBody (fun _ => .error "t") (fun _ => .error "e") true
        "hello world" "Foo" =
      (.error (.structuralInvalid
        "Invalid component structure: component must be a function or const declaration"),
       false) :=
  c7_structural_before_transpile (fun _ => .error "t") (fun _ => .error "e")
    "hello world" "Foo" (by decide) (by decide)

/-- C2 (code bug): for the input `export default function X(){}` with
expected name `Y`, the pipeline extracts the declared name `X` from the
source, overriding the expected name, and — whenever Babel accepts the
cleaned source and the factory evaluation yields the function `X`, as real
JavaScript execution does for this input — resolves and renders `X`
successfully instead of failing with a resolution error for `Y`. -/
theorem c2_resolution_bypassed (transform : String → Except String String)
    (evalFactory : String → Except String JsVal) (tc : String)
    (ht : transform "function X(){}" = .ok tc)
    (he : evalFactory (wrappedCode tc "X") = .ok (.func "X")) :
    cleanup "export default function X(){}" = "function X(){}" ∧
    extractName (cleanup "export default function X(){}").toList = some "X" ∧
    ¬ ("X" = "Y") ∧
    useMemoBody transform evalFactory true "export default function X(){}" "Y" =
      (.ok (some (.func "X")), true) := by
  have hcl : cleanup "export default function X(){}" = "function X(){}" := by
    decide
  have hx : extractName ("function X(){}").toList = some "X" := by decide
  have key : useMemoBody transform evalFactory true
      "export default function X(){}" "Y" =
      (match transform (cleanup "export default function X(){}") with
       | .error e =>
         ((.error (.transpileError ("JSX transpilation failed: " ++ e)) :
            Except RFailure (Option JsVal)), true)
       | .ok transpiledCode =>
         match evalFactory (wrappedCode transpiledCode
             ((extractName
                (cleanup "export default function X(){}").toList).getD "Y")) with
         | .error e => (.error (.evalError e), true)
         | .ok component =>
           match component with
           | .func tag => (.ok (some (.func tag)), true)
           | _ =>
             (.error (.resolutionError
               ("Component \"" ++
                (extractName
                  (cleanup "export default function X(){}").toList).getD "Y" ++
                "\" not found or is not a function")), true)) := rfl
  refine ⟨hcl, by rw [hcl]; exact hx, by decide, ?_⟩
  rw [key, hcl, hx]
  simp only [Option.getD_some, ht, he]

/-- Witness for C2 with oracles realizing the JavaScript behaviour at the
failing input. -/
theorem c2_resolution_bypassed_witness :
    cleanup "export default function X(){}" = "function X(){}" ∧
    extractName (cleanup "export default function X(){}").toList = some "X" ∧
    ¬ ("X" = "Y") ∧
    useMemoBody (fun _ => .ok "function X(){}")
        (fun _ => .ok (.func "X")) true
        "export default function X(){}" "Y" =
      (.ok (some (.func "X")), true) :=
  c2_resolution_bypassed (fun _ => .ok "function X(){}")
    (fun _ => .ok (.func "X")) "function X(){}" rfl rfl

end Sketchly
